import Mathlib

/-!
Verification of the DVSR/HVSR depth-video super-resolution networks
(`src/model/dvsr.py`, `src/model/hvsr.py`) against their natural-language
specification.

The development is a shallow embedding: tensors are modelled per pixel /
per frame / per patch by rational (or, for the analytic softmax claim,
real) values, the time axis of an `(n, t, c, h, w)` tensor becomes a
`List`, and the opaque pretrained operators (SPyNet, the deformable
alignment, the residual backbones) become universally quantified function
parameters, since every claim below is independent of their weights.
Python's `None` becomes `Option`, and operations that raise on `None`
(attribute access such as `.cpu()` / `.view(...)`) return `Except`.
-/

namespace DVSRModel

/-- A video frame with `p` scalar entries (channels × pixels, flattened):
one time slice of an `(n, t, c, h, w)` tensor at a fixed batch index. -/
def Frame (p : ℕ) : Type := Fin p → ℚ

instance (p : ℕ) : DecidableEq (Frame p) := by
  unfold Frame; infer_instance

/-- Sum of squared entry differences of two frames.  `torch.norm` of the
difference tensor is the square root of this; the source only compares the
norm with `0`, and `sqrt s = 0 ↔ s = 0`, so the embedding keeps the square. -/
def frameDiffSq {p : ℕ} (f g : Frame p) : ℚ :=
  ∑ x : Fin p, (f x - g x) ^ 2

/-- Sum of squared differences of two equal-length frame sequences
(`torch.norm(lqs_1 - lqs_2.flip(1))`, squared). -/
def seqDiffSq {p : ℕ} (a b : List (Frame p)) : ℚ :=
  (List.zipWith frameDiffSq a b).sum

/-- `DVSR.check_if_mirror_extended` (dvsr.py lines 167-179).  The method
mutates `self.is_mirror_extended`; the embedding passes that instance state
explicitly: `flag` is the value on entry and the result is the value after
the call.  The source only ever sets the flag to `True` (`torch.chunk`
splits the even-length sequence in halves; `flip(1)` is `List.reverse`). -/
def check_if_mirror_extended {p : ℕ} (flag : Bool) (lqs : List (Frame p)) : Bool :=
  if lqs.length % 2 = 0 then
    if seqDiffSq (lqs.take (lqs.length / 2)) ((lqs.drop (lqs.length / 2)).reverse) = 0
    then true else flag
  else flag

/-- Softmax over the two stacked confidence channels
(`nn.Softmax(dim=2)` applied to `torch.cat((rgb_conf, d_conf), dim=2)`,
dvsr.py lines 522-534), at one pixel.  PyTorch's max-subtracted
implementation is pointwise equal to this quotient. -/
noncomputable def softmax2 (c1 c2 : ℝ) : ℝ × ℝ :=
  (Real.exp c1 / (Real.exp c1 + Real.exp c2),
   Real.exp c2 / (Real.exp c1 + Real.exp c2))

/-- Final blend of `DVSR.forward` (dvsr.py lines 522-536) at one pixel:
returns `(depth_final, rgb_conf, d_conf)` after the softmax reassignment,
where `depth_final = d_depth * d_conf + rgb_depth * rgb_conf`. -/
noncomputable def forward_blend (rgb_depth d_depth rgb_conf d_conf : ℝ) : ℝ × ℝ × ℝ :=
  let w := softmax2 rgb_conf d_conf
  (d_depth * w.2 + rgb_depth * w.1, w.1, w.2)

/-! ### Flow computation: sequential (CPU-offload) and batched modes

`DVSR.compute_flow` (dvsr.py lines 181-236).  `guides_1 = guides[:, :-1]`
is `gs.dropLast`, `guides_2 = guides[:, 1:]` is `gs.tail`.  The spynet is
an opaque pairwise operator `net`.  The sequential mode indexes the pair
tensors with the loop counter `tt`; the batched mode reshapes all pairs
into one call, i.e. maps `net` over the zipped pairs.  `d` is the
out-of-range default of `getD`; the loop indices are always in range. -/

/-- Backward flows, sequential mode (`for tt in range(t-1): spynet(guides_1[:,tt], guides_2[:,tt])`,
results concatenated along the time axis). -/
def flows_backward_seq {G Wt : Type} (net : G → G → Wt) (gs : List G) (d : G) : List Wt :=
  (List.range (gs.length - 1)).map fun tt =>
    net (gs.dropLast.getD tt d) (gs.tail.getD tt d)

/-- Backward flows, batched mode (`spynet(guides_1.reshape(-1,c,h,w), guides_2.reshape(-1,c,h,w)).view(n,t-1,2,h,w)`). -/
def flows_backward_batch {G Wt : Type} (net : G → G → Wt) (gs : List G) : List Wt :=
  List.zipWith net gs.dropLast gs.tail

/-- Forward flows, sequential mode (arguments swapped: `spynet(guides_2[:,tt], guides_1[:,tt])`). -/
def flows_forward_seq {G Wt : Type} (net : G → G → Wt) (gs : List G) (d : G) : List Wt :=
  (List.range (gs.length - 1)).map fun tt =>
    net (gs.tail.getD tt d) (gs.dropLast.getD tt d)

/-- Forward flows, batched mode. -/
def flows_forward_batch {G Wt : Type} (net : G → G → Wt) (gs : List G) : List Wt :=
  List.zipWith (fun a b => net b a) gs.dropLast gs.tail

/-- Per-frame spatial feature extraction, sequential mode (dvsr.py lines
403-428, stage 1): `for i in range(t): feat_extract(cat(lqs[:,i], conv_guide_init(guides[:,i])))`. -/
def spatial_seq {Lq G S : Type} (convG : G → S) (fe : Lq → S → S)
    (lqs : List Lq) (guides : List G) (dl : Lq) (dg : G) : List S :=
  (List.range lqs.length).map fun i =>
    fe (lqs.getD i dl) (convG (guides.getD i dg))

/-- Per-frame spatial feature extraction, batched mode (dvsr.py lines
429-459, stage 1): one call on the `(n*t, ...)` reshape, viewed back as a
per-frame list.  A convolutional network acts independently on each batch
element, so the batched call is the map of the per-frame function. -/
def spatial_batch {Lq G S : Type} (convG : G → S) (fe : Lq → S → S)
    (lqs : List Lq) (guides : List G) : List S :=
  List.zipWith (fun l g => fe l (convG g)) lqs guides

/-! ### hg_forward flow plumbing and the `None` forward flow -/

/-- Python runtime errors raised on the flow path: attribute access on
`None` (`flows_forward.cpu()` in `compute_flow`, dvsr.py line 234, and
`flows_forward.view(...)` inside the interpolation, line 466). -/
inductive PyErr : Type
  | noneCpu  : PyErr
  | noneView : PyErr
deriving DecidableEq, Repr

/-- `.cpu()` on a tensor: a device move, numerically the identity. -/
def cpu_move {Wt : Type} (w : Wt) : Wt := w

/-- `DVSR.compute_flow` (dvsr.py lines 181-236).  `mirror` is
`self.is_mirror_extended`, `cpuCache` is `self.cpu_cache`.  When `mirror`
holds, `flows_forward = None`; when additionally `cpuCache` holds, the
source calls `flows_forward.cpu()` on that `None` and raises. -/
def compute_flow {G Wt : Type} (net : G → G → Wt) (dG : G)
    (mirror cpuCache : Bool) (guides : List G) :
    Except PyErr (Option (List Wt) × List Wt) :=
  let fb := if cpuCache then flows_backward_seq net guides dG
            else flows_backward_batch net guides
  let ff : Option (List Wt) :=
    if mirror then none
    else some (if cpuCache then flows_forward_seq net guides dG
               else flows_forward_batch net guides)
  if cpuCache then
    match ff with
    | none => .error .noneCpu
    | some f => .ok (some (f.map cpu_move), fb.map cpu_move)
  else .ok (ff, fb)

/-- Bicubic downscale by 4 and division by 4 of every flow field
(dvsr.py lines 464-479); `interp` is the opaque per-field resampler. -/
def interp_flows {Wt : Type} (interp : Wt → Wt) (fl : List Wt) : List Wt :=
  fl.map interp

/-- The flow-handling slice of `DVSR.hg_forward` (dvsr.py lines 398-399 and
462-479): derive the mirror flag from `lqs`, run `compute_flow`, then apply
`F.interpolate(flows_forward.view(...), ...)` unconditionally — on a `None`
forward flow this attribute access raises. -/
def hg_forward_flow_stage {p : ℕ} {G Wt : Type} (net : G → G → Wt)
    (interp : Wt → Wt) (dG : G) (flagIn cpuCache : Bool)
    (lqs : List (Frame p)) (guides : List G) :
    Except PyErr (Option (List Wt) × List Wt) :=
  let mirror := check_if_mirror_extended flagIn lqs
  match compute_flow net dG mirror cpuCache guides with
  | .error e => .error e
  | .ok (ff, fb) =>
    match ff with
    | none => .error .noneView
    | some f => .ok (some (interp_flows interp f), interp_flows interp fb)

/-- Flow selection of the propagation dispatch (dvsr.py lines 488-493):
backward branches take the backward flows; forward branches take the
forward flows when they are not `None`, else fall back to
`flows_backward.flip(1)`.  The boolean records whether the fallback branch
was taken. -/
def branch_flows {Wt : Type} (dirBackward : Bool)
    (ffOpt : Option (List Wt)) (fb : List Wt) : List Wt × Bool :=
  if dirBackward then (fb, false)
  else
    match ffOpt with
    | some f => (f, false)
    | none => (fb.reverse, true)

/-! ### Histogram matching error model (hvsr.py lines 19-101)

The spatial axes are modelled one low-resolution pixel-patch at a time:
`rebin`/`cdf` are the per-patch bin-axis columns (`dim=1` of the tensors),
and `pxs` are the `pitch × pitch` full-resolution pixels of that patch
(`repeat_interleave` of `rebin_idx` gives every pixel of a patch the same
rebin column, and the patch pooling sums over exactly these pixels). -/

/-- One full-resolution pixel: predicted depth and RGB guide channels. -/
structure Pixel where
  d : ℚ
  r : ℚ
  g : ℚ
  b : ℚ
deriving DecidableEq, Repr

/-- `torch.clamp(d, min=0.0, max=1.0)`. -/
def clamp01 (x : ℚ) : ℚ := min (max x 0) 1

/-- `albedo = torch.mean(img, dim=1)`: channel mean of the guide. -/
def albedo (px : Pixel) : ℚ := (px.r + px.g + px.b) / 3

/-- `r = albedo / (1e-3 + d**2)` with the clamped depth. -/
def intensity (px : Pixel) : ℚ := albedo px / (1 / 1000 + clamp01 px.d ^ 2)

/-- `torch.round`: round half to even (banker's rounding). -/
def round_half_even (x : ℚ) : ℤ :=
  if x - ⌊x⌋ = 1 / 2 then (if (2 : ℤ) ∣ ⌊x⌋ then ⌊x⌋ else ⌊x⌋ + 1)
  else round x

/-- Bin-axis sum `torch.sum(((round(d*(temp_res-1)) - rebin_idx) >= 0).float(), dim=1)`
at one pixel: the number of rebin boundaries not exceeding the discretized
depth. -/
def bin_count (tempRes : ℕ) (rebin : List ℚ) (px : Pixel) : ℕ :=
  (rebin.filter fun rb =>
    rb ≤ ((round_half_even (clamp01 px.d * ((tempRes : ℚ) - 1)) : ℤ) : ℚ)).length

/-- `dtof_hist_torch` (hvsr.py lines 19-61) at one pixel-patch: the one-hot
selection `(hist - idx_volume) == 0` against `idx_volume = arange(1, M+1)`,
weighted by the intensity `r` and summed over the patch pixels.  Entry `m`
(0-based) of the result is histogram bin `m+1`. -/
def dtof_hist_torch (tempRes : ℕ) (rebin : List ℚ) (pxs : List Pixel) : List ℚ :=
  (List.range rebin.length).map fun m =>
    (pxs.map fun px =>
      if bin_count tempRes rebin px = m + 1 then intensity px else 0).sum

/-- `hist_pred / (torch.sum(hist_pred, dim=1) + 1e-3)`. -/
def normalize_hist (h : List ℚ) : List ℚ :=
  h.map fun q => q / (h.sum + 1 / 1000)

/-- `torch.cumsum(·, dim=1)` along the bin axis. -/
def cumsum (l : List ℚ) : List ℚ :=
  (List.range l.length).map fun i => (l.take (i + 1)).sum

/-- The predicted CDF built inside `get_inp_error` (hvsr.py lines 86-88):
cumulative sum of the sum-normalized predicted histogram. -/
def cdf_pred (tempRes : ℕ) (rebin : List ℚ) (pxs : List Pixel) : List ℚ :=
  cumsum (normalize_hist (dtof_hist_torch tempRes rebin pxs))

/-- `torch.max(·, dim=1)[0]` along the bin axis (the bin lists of the model
are nonempty; `0` on `[]` is never exercised by the source shapes). -/
def list_max : List ℚ → ℚ
  | [] => 0
  | x :: xs => xs.foldl max x

/-- `get_inp_error` (hvsr.py lines 64-101) at one pixel-patch, before the
final upsample: normalize the input CDF by its bin-axis maximum (+1e-3),
synthesize the predicted CDF from `rebin_idx[:, :-1]`, take the bin-width
weighted mean absolute CDF difference, then force the sentinel `-1`
wherever the normalized input CDF has bin-axis maximum `0`. -/
def get_inp_error (tempRes : ℕ) (cdf rebin : List ℚ) (pxs : List Pixel) : ℚ :=
  let delta_idx := List.zipWith (fun a b => a - b) rebin.tail rebin.dropLast
  let cdf_inp := cdf.map fun c => c / (list_max cdf + 1 / 1000)
  let cdfp := cdf_pred tempRes rebin.dropLast pxs
  let errs := List.zipWith (fun ab dl => |ab * dl|)
    (List.zipWith (fun a b => a - b) cdf_inp.tail cdfp) delta_idx
  let base := errs.sum / (errs.length : ℚ)
  if list_max cdf_inp = 0 then -1 else base

/-- `torch.repeat_interleave(·, pitch, dim=2)`: repeat every row `p` times. -/
def repeat_rows {α : Type} (p : ℕ) (g : List (List α)) : List (List α) :=
  g.flatMap fun row => List.replicate p row

/-- `torch.repeat_interleave(·, pitch, dim=3)`: repeat every entry of every
row `p` times. -/
def repeat_cols {α : Type} (p : ℕ) (g : List (List α)) : List (List α) :=
  g.map fun row => row.flatMap fun v => List.replicate p v

/-- The nearest-neighbor upsample of the error map (hvsr.py lines 97-99):
`repeat_interleave` over `dim=2` then `dim=3`, factor `pitch`. -/
def upsample_nearest {α : Type} (p : ℕ) (g : List (List α)) : List (List α) :=
  repeat_cols p (repeat_rows p g)

/-! ### Positional encoding (hvsr.py lines 104-140) -/

/-- `y` coordinate grid from `torch.meshgrid(arange(H), arange(W))`. -/
def ygrid : ℕ → ℕ → ℚ := fun i _ => (i : ℚ)

/-- `x` coordinate grid. -/
def xgrid : ℕ → ℕ → ℚ := fun _ j => (j : ℚ)

/-- `nn.MaxPool2d(kernel_size=pitch, stride=pitch)` on a grid function:
the maximum over the `pitch × pitch` patch at low-res position `(k, l)`. -/
def max_pool (p : ℕ) (f : ℕ → ℕ → ℚ) (k l : ℕ) : ℚ :=
  list_max ((List.range p).flatMap fun di =>
    (List.range p).map fun dj => f (p * k + di) (p * l + dj))

/-- `torch.repeat_interleave(·, pitch, dim=2/3)` on a low-res grid
function: full-res pixel `(y, x)` reads low-res cell `(y/p, x/p)`. -/
def up_grid (p : ℕ) (g : ℕ → ℕ → ℚ) : ℕ → ℕ → ℚ :=
  fun y x => g (y / p) (x / p)

/-- `patch_y = repeat_interleave(-MaxPool2d(pitch)(-y))`: the minimum `y`
coordinate of the enclosing patch, broadcast back to full resolution. -/
def patch_y (p : ℕ) : ℕ → ℕ → ℚ :=
  up_grid p fun k l => -max_pool p (fun i j => -ygrid i j) k l

/-- `patch_x`, likewise for the `x` coordinate. -/
def patch_x (p : ℕ) : ℕ → ℕ → ℚ :=
  up_grid p fun k l => -max_pool p (fun i j => -xgrid i j) k l

/-- The six channels of `get_pos_encoding` at pixel `(y, x)`, in the
concatenation order `abs_pos, rel_pos, patch_pos` of hvsr.py line 139:
`[y/H, x/W, rel_y/pitch, rel_x/pitch, patch_y/H, patch_x/W]`. -/
def pos_encoding_pixel (H W p : ℕ) (y x : ℕ) : List ℚ :=
  [ygrid y x / (H : ℚ), xgrid y x / (W : ℚ),
   (ygrid y x - patch_y p y x) / (p : ℚ), (xgrid y x - patch_x p y x) / (p : ℚ),
   patch_y p y x / (H : ℚ), patch_x p y x / (W : ℚ)]

/-- `get_pos_encoding(B, T, H, W, pitch)` (hvsr.py lines 104-140): the
final `.repeat(B, T, 1, 1, 1)` broadcasts the same pixel encoding to every
batch index `b < B` and time index `t < T`. -/
def get_pos_encoding (_B _T H W p : ℕ) : ℕ → ℕ → ℕ → ℕ → List ℚ :=
  fun _b _t y x => pos_encoding_pixel H W p y x

/-- Modelled from the claim's words, for comparison with the source: the
claim asserts channels relative to the enclosing patch *center*; the
center of the `pitch`-wide patch starting at `p*(y/p)` is
`p*(y/p) + (p-1)/2`. -/
def spec_patch_center_y (p : ℕ) (y : ℕ) : ℚ :=
  ((p * (y / p) : ℕ) : ℚ) + ((p : ℚ) - 1) / 2

/-- Modelled from the claim's words: patch-center `x` coordinate. -/
def spec_patch_center_x (p : ℕ) (x : ℕ) : ℚ :=
  ((p * (x / p) : ℕ) : ℚ) + ((p : ℚ) - 1) / 2

/-- Modelled from the claim's words: the six channels with the relative
and patch channels computed from the patch *center*. -/
def spec_pos_encoding_pixel (H W p : ℕ) (y x : ℕ) : List ℚ :=
  [(y : ℚ) / (H : ℚ), (x : ℚ) / (W : ℚ),
   ((y : ℚ) - spec_patch_center_y p y) / (p : ℚ),
   ((x : ℚ) - spec_patch_center_x p x) / (p : ℚ),
   spec_patch_center_y p y / (H : ℚ), spec_patch_center_x p x / (W : ℚ)]

/-! ### The propagation loop (dvsr.py lines 238-323)

Features and flow fields are opaque values of types `F` and `Wt`; the
learned operators of one branch are collected in `PropOps`.  `others` are
the already completed earlier branches (`feats[k]` for
`k ∉ {"spatial", module_name}`), each indexed by true frame order. -/

/-- The opaque learned operators and tensor primitives used by one call of
`propagate`.  `zeroF`/`zeroW` model `new_zeros`/`zeros_like` and also
serve as the (never exercised) out-of-range `getD` defaults. -/
structure PropOps (F Wt : Type) where
  flowWarp : F → Wt → F
  warpFlow : Wt → Wt → Wt
  addFlow : Wt → Wt → Wt
  deformAlign : F × F → F × F × F → Wt → Wt → F
  backbone : List F → F
  addF : F → F → F
  zeroF : F
  zeroW : Wt

/-- One internal step of the propagation loop: whether the second-order
deformable alignment ran (`i > 0`) and the feature appended to the branch. -/
structure PropRec (F : Type) where
  aligned : Bool
  out : F

/-- `flow_idx[i]`: `range(-1, t)` for forward branches (`flow_n1 = flows[i-1]`),
and the reversed `frame_idx` for backward branches (`flow_n1 = flows[t-i]`). -/
def flow_index (isBackward : Bool) (t i : ℕ) : ℕ :=
  if isBackward then t - i else i - 1

/-- The body of one iteration of the loop in `propagate` (dvsr.py lines
265-314): returns the new `feat_prop` appended to the branch.  `i` is the
loop counter, `idx` the visited frame index, `outs` the features appended
so far (`feats[module_name]`, in append order). -/
def prop_step {F Wt : Type} (ops : PropOps F Wt) (flows : List Wt)
    (spatial : List F) (others : List (List F)) (isBackward : Bool)
    (t i idx : ℕ) (featProp : F) (outs : List F) : F :=
  let mappingIdx := List.range spatial.length ++ (List.range spatial.length).reverse
  let featCurrent := spatial.getD (mappingIdx.getD idx 0) ops.zeroF
  let fp1 :=
    if 0 < i then
      let flowN1 := flows.getD (flow_index isBackward t i) ops.zeroW
      let condN1 := ops.flowWarp featProp flowN1
      let sec :=
        if 1 < i then
          let featN2 := outs.getD (outs.length - 2) ops.zeroF
          let flowN2 := flows.getD (flow_index isBackward t (i - 1)) ops.zeroW
          let flowN2c := ops.addFlow flowN1 (ops.warpFlow flowN2 flowN1)
          (featN2, flowN2c, ops.flowWarp featN2 flowN2c)
        else (ops.zeroF, ops.zeroW, ops.zeroF)
      ops.deformAlign (featProp, sec.1) (condN1, featCurrent, sec.2.2) flowN1 sec.2.1
    else featProp
  let feat := [featCurrent] ++ others.map (fun br => br.getD idx ops.zeroF) ++ [fp1]
  ops.addF fp1 (ops.backbone feat)

/-- The loop `for i, idx in enumerate(frame_idx)` of `propagate`: consumes
the enumerated index pairs, threading the running `feat_prop` and the
appended list, and records one `PropRec` per iteration. -/
def prop_run {F Wt : Type} (ops : PropOps F Wt) (flows : List Wt)
    (spatial : List F) (others : List (List F)) (isBackward : Bool)
    (t : ℕ) : List (ℕ × ℕ) → F → List F → List (PropRec F)
  | [], _, _ => []
  | pr :: rest, featProp, outs =>
    let fp := prop_step ops flows spatial others isBackward t pr.1 pr.2 featProp outs
    ⟨decide (0 < pr.1), fp⟩ ::
      prop_run ops flows spatial others isBackward t rest fp (outs ++ [fp])

/-- All internal steps of one `propagate` call (dvsr.py lines 253-318):
`t = flows.size(1)`, `frame_idx = range(0, t+1)` (reversed for backward
branches), seed accumulator `flows.new_zeros(...)`, empty output list. -/
def propagate_records {F Wt : Type} (ops : PropOps F Wt) (flows : List Wt)
    (spatial : List F) (others : List (List F)) (isBackward : Bool) :
    List (PropRec F) :=
  let t := flows.length
  let frameIdx := if isBackward then (List.range (t + 1)).reverse else List.range (t + 1)
  prop_run ops flows spatial others isBackward t frameIdx.enum ops.zeroF []

/-- The externally visible output list of the branch (dvsr.py lines
314-321): the appended features, reversed into true frame order for
backward branches. -/
def propagate {F Wt : Type} (ops : PropOps F Wt) (flows : List Wt)
    (spatial : List F) (others : List (List F)) (isBackward : Bool) : List F :=
  let outs := (propagate_records ops flows spatial others isBackward).map PropRec.out
  if isBackward then outs.reverse else outs

/-- A concrete rational instantiation of the opaque operators, used to
evaluate the loop structure on explicit inputs. -/
def opsQ : PropOps ℚ ℚ where
  flowWarp := fun f w => f + w
  warpFlow := fun a b => a + b
  addFlow := fun a b => a + b
  deformAlign := fun fp cond w1 w2 => fp.1 + fp.2 + cond.1 + cond.2.1 + cond.2.2 + w1 + w2
  backbone := List.sum
  addF := fun a b => a + b
  zeroF := 0
  zeroW := 0

/-! ## Helper lemmas -/

lemma frameDiffSq_nonneg {p : ℕ} (f g : Frame p) : 0 ≤ frameDiffSq f g :=
  Finset.sum_nonneg fun _ _ => sq_nonneg _

lemma frameDiffSq_eq_zero_iff {p : ℕ} (f g : Frame p) :
    frameDiffSq f g = 0 ↔ f = g := by
  unfold frameDiffSq
  rw [Finset.sum_eq_zero_iff_of_nonneg fun _ _ => sq_nonneg _]
  constructor
  · intro h
    funext x
    have hx := h x (Finset.mem_univ x)
    have := pow_eq_zero_iff (two_ne_zero) |>.mp hx
    linarith [sub_eq_zero.mp this]
  · rintro rfl
    intro x _
    simp

lemma seqDiffSq_nonneg {p : ℕ} (a b : List (Frame p)) : 0 ≤ seqDiffSq a b := by
  induction a generalizing b with
  | nil => simp [seqDiffSq]
  | cons f a ih =>
    cases b with
    | nil => simp [seqDiffSq]
    | cons g b =>
      have h1 := frameDiffSq_nonneg f g
      have h2 := ih b
      simp only [seqDiffSq, List.zipWith_cons_cons, List.sum_cons] at *
      linarith

lemma seqDiffSq_eq_zero_iff {p : ℕ} (a b : List (Frame p))
    (h : a.length = b.length) : seqDiffSq a b = 0 ↔ a = b := by
  induction a generalizing b with
  | nil =>
    cases b with
    | nil => simp [seqDiffSq]
    | cons g b => simp at h
  | cons f a ih =>
    cases b with
    | nil => simp at h
    | cons g b =>
      have h' : a.length = b.length := by simpa using h
      have hzs : 0 ≤ seqDiffSq a b := seqDiffSq_nonneg a b
      have hfn : 0 ≤ frameDiffSq f g := frameDiffSq_nonneg f g
      have hcons : seqDiffSq (f :: a) (g :: b) = frameDiffSq f g + seqDiffSq a b := by
        simp [seqDiffSq]
      constructor
      · intro h0
        rw [hcons] at h0
        have hf : frameDiffSq f g = 0 := le_antisymm (by linarith) hfn
        have hs2 : seqDiffSq a b = 0 := le_antisymm (by linarith) hzs
        rw [(frameDiffSq_eq_zero_iff f g).mp hf, (ih b h').mp hs2]
      · intro h0
        injection h0 with hfg hab
        subst hfg
        subst hab
        rw [hcons, (frameDiffSq_eq_zero_iff f f).mpr rfl, (ih a rfl).mpr rfl, add_zero]

/-! ## C3: mirror-extension detection -/

/-- C3: starting from the unset flag, `check_if_mirror_extended` declares
mirror-extension true iff the sequence has even length and its first half
exactly equals its second half reversed in time; in particular odd-length
sequences are never flagged. -/
theorem C3_mirror_detect {p : ℕ} (lqs : List (Frame p)) :
    check_if_mirror_extended false lqs = true ↔
      lqs.length % 2 = 0 ∧
        lqs.take (lqs.length / 2) = (lqs.drop (lqs.length / 2)).reverse := by
  unfold check_if_mirror_extended
  by_cases he : lqs.length % 2 = 0
  · rw [if_pos he]
    have hlen : (lqs.take (lqs.length / 2)).length
        = ((lqs.drop (lqs.length / 2)).reverse).length := by
      simp only [List.length_take, List.length_reverse, List.length_drop]
      omega
    constructor
    · intro h
      split_ifs at h with hz
      exact ⟨he, (seqDiffSq_eq_zero_iff _ _ hlen).mp hz⟩
    · rintro ⟨-, heq⟩
      rw [if_pos ((seqDiffSq_eq_zero_iff _ _ hlen).mpr heq)]
  · rw [if_neg he]
    simp [he]

/-! ## C4: the mirror flag is durable instance state -/

/-- C4 counterexample: after a forward pass on the mirror-extended
sequence `[f, f]` sets the flag, a subsequent call on the non-mirror
sequence `[f, f1]` (whose halves differ) still observes the flag set —
`check_if_mirror_extended` never resets `self.is_mirror_extended`. -/
theorem C4_flag_cex :
    check_if_mirror_extended
        (check_if_mirror_extended false [(fun _ => 0 : Frame 1), fun _ => 0])
        [(fun _ => 0 : Frame 1), fun _ => 1] = true
    ∧ ¬ ([(fun _ => 0 : Frame 1), fun _ => 1].take 1
          = ([(fun _ => 0 : Frame 1), fun _ => 1].drop 1).reverse) := by
  constructor
  · norm_num [check_if_mirror_extended, seqDiffSq, frameDiffSq]
  · intro h
    have h1 : ([(fun _ => 0 : Frame 1), fun _ => 1].take 1) = [fun _ => 0] := rfl
    have h2 : (([(fun _ => 0 : Frame 1), fun _ => 1].drop 1).reverse) = [fun _ => 1] := rfl
    rw [h1, h2] at h
    injection h with h3 h4
    have h5 := congrFun h3 0
    norm_num at h5

/-- C4 amended: the mirror-extension flag is persisted instance state, not
per-call: the source only ever sets it to `True`, so once set it is
observed set by every subsequent call, whatever sequence is passed. -/
theorem C4_flag_persists {p : ℕ} (lqs : List (Frame p)) :
    check_if_mirror_extended true lqs = true := by
  unfold check_if_mirror_extended
  split_ifs <;> rfl

/-! ## C2: softmax confidence blend -/

/-- C2: the blended weights obtained by stacking the two confidences,
applying softmax across the stacking axis and splitting sum to 1 and lie
in `[0, 1]` at every pixel, and the final depth of `forward` equals
`d_depth * w2 + rgb_depth * w1` pixelwise. -/
theorem C2_confidence_blend (rgb_conf d_conf rgb_depth d_depth : ℝ) :
    (softmax2 rgb_conf d_conf).1 + (softmax2 rgb_conf d_conf).2 = 1
    ∧ 0 ≤ (softmax2 rgb_conf d_conf).1 ∧ (softmax2 rgb_conf d_conf).1 ≤ 1
    ∧ 0 ≤ (softmax2 rgb_conf d_conf).2 ∧ (softmax2 rgb_conf d_conf).2 ≤ 1
    ∧ (forward_blend rgb_depth d_depth rgb_conf d_conf).1 =
        d_depth * (softmax2 rgb_conf d_conf).2
          + rgb_depth * (softmax2 rgb_conf d_conf).1 := by
  have h1 : 0 < Real.exp rgb_conf := Real.exp_pos _
  have h2 : 0 < Real.exp d_conf := Real.exp_pos _
  have hs : 0 < Real.exp rgb_conf + Real.exp d_conf := by linarith
  unfold softmax2 forward_blend
  refine ⟨?_, ?_, ?_, ?_, ?_, rfl⟩
  · field_simp
  · positivity
  · rw [div_le_one hs]; linarith
  · positivity
  · rw [div_le_one hs]; linarith

/-! ## C10: sequential and batched execution modes agree -/

lemma zipWith_eq_range_map {α β γ : Type} (f : α → β → γ) (da : α) (db : β) :
    ∀ (as : List α) (bs : List β), as.length = bs.length →
      List.zipWith f as bs =
        (List.range as.length).map fun i => f (as.getD i da) (bs.getD i db) := by
  intro as
  induction as with
  | nil =>
    intro bs h
    cases bs with
    | nil => simp
    | cons b bs => simp at h
  | cons a as ih =>
    intro bs h
    cases bs with
    | nil => simp at h
    | cons b bs =>
      have h' : as.length = bs.length := by simpa using h
      simp only [List.zipWith_cons_cons, List.length_cons, List.range_succ_eq_map,
        List.map_cons, List.map_map, List.getD_cons_zero]
      rw [ih bs h']
      simp [Function.comp, List.getD_cons_succ]

lemma flows_backward_modes {G Wt : Type} (net : G → G → Wt) (gs : List G) (d : G) :
    flows_backward_seq net gs d = flows_backward_batch net gs := by
  unfold flows_backward_seq flows_backward_batch
  have h : gs.dropLast.length = gs.tail.length := by
    simp [List.length_dropLast, List.length_tail]
  rw [zipWith_eq_range_map net d d gs.dropLast gs.tail h, List.length_dropLast]

lemma flows_forward_modes {G Wt : Type} (net : G → G → Wt) (gs : List G) (d : G) :
    flows_forward_seq net gs d = flows_forward_batch net gs := by
  unfold flows_forward_seq flows_forward_batch
  have h : gs.dropLast.length = gs.tail.length := by
    simp [List.length_dropLast, List.length_tail]
  rw [zipWith_eq_range_map (fun a b => net b a) d d gs.dropLast gs.tail h,
    List.length_dropLast]

lemma spatial_modes {Lq G S : Type} (convG : G → S) (fe : Lq → S → S)
    (lqs : List Lq) (guides : List G) (dl : Lq) (dg : G)
    (hlen : lqs.length = guides.length) :
    spatial_seq convG fe lqs guides dl dg = spatial_batch convG fe lqs guides := by
  unfold spatial_seq spatial_batch
  rw [zipWith_eq_range_map (fun l g => fe l (convG g)) dl dg lqs guides hlen]

/-- C10: computing the flow one consecutive frame-pair at a time and
concatenating (CPU-offload mode) equals the single batched flow call over
all pairs, in both directions, and per-frame spatial feature extraction
equals the batched extraction over all frames. -/
theorem C10_seq_batch_equiv {G Wt Lq S : Type} (net : G → G → Wt)
    (convG : G → S) (fe : Lq → S → S) (gs : List G) (dG : G)
    (lqs : List Lq) (guides : List G) (dl : Lq) (dg : G)
    (hlen : lqs.length = guides.length) :
    flows_backward_seq net gs dG = flows_backward_batch net gs
    ∧ flows_forward_seq net gs dG = flows_forward_batch net gs
    ∧ spatial_seq convG fe lqs guides dl dg = spatial_batch convG fe lqs guides :=
  ⟨flows_backward_modes net gs dG, flows_forward_modes net gs dG,
    spatial_modes convG fe lqs guides dl dg hlen⟩

/-- C10 witness: the two execution modes evaluated on concrete inputs. -/
theorem C10_seq_batch_equiv_witness :
    flows_backward_seq (fun a b : ℚ => a - b) [1, 2, 3] 0
      = flows_backward_batch (fun a b : ℚ => a - b) [1, 2, 3]
    ∧ flows_forward_seq (fun a b : ℚ => a - b) [1, 2, 3] 0
      = flows_forward_batch (fun a b : ℚ => a - b) [1, 2, 3]
    ∧ spatial_seq (fun g : ℚ => g + 1) (fun l s : ℚ => l * s) [1, 2] [3, 4] 0 0
      = spatial_batch (fun g : ℚ => g + 1) (fun l s : ℚ => l * s) [1, 2] [3, 4] :=
  C10_seq_batch_equiv (fun a b : ℚ => a - b) (fun g : ℚ => g + 1)
    (fun l s : ℚ => l * s) [1, 2, 3] 0 [1, 2] [3, 4] 0 0 rfl

/-! ## C6: `None` forward flow raises before the fallback branch -/

/-- C6: on a sequence flagged as mirror-extended, the flow stage of
`hg_forward` raises (under CPU-offload already at `flows_forward.cpu()`
inside `compute_flow`, otherwise at the unconditional
`flows_forward.view` of the interpolation), and consequently the
`flows_backward.flip(1)` fallback of the propagation dispatch is
unreachable: every successfully returned flow pair has a non-`None`
forward component, so no branch ever selects the fallback. -/
theorem C6_none_flow_error {p : ℕ} {G Wt : Type} (net : G → G → Wt)
    (interp : Wt → Wt) (dG : G) (flagIn cpuCache : Bool)
    (lqs : List (Frame p)) (guides : List G) :
    (check_if_mirror_extended flagIn lqs = true →
      hg_forward_flow_stage net interp dG flagIn cpuCache lqs guides =
        .error (if cpuCache then PyErr.noneCpu else PyErr.noneView))
    ∧ ∀ ffOpt fb,
        hg_forward_flow_stage net interp dG flagIn cpuCache lqs guides =
            .ok (ffOpt, fb) →
          ∀ dir, (branch_flows dir ffOpt fb).2 = false := by
  constructor
  · intro hm
    simp only [hg_forward_flow_stage, compute_flow, hm]
    cases cpuCache <;> simp
  · intro ffOpt fb hok dir
    simp only [hg_forward_flow_stage, compute_flow] at hok
    cases hm : check_if_mirror_extended flagIn lqs with
    | true =>
      rw [hm] at hok
      cases cpuCache <;> simp at hok
    | false =>
      rw [hm] at hok
      cases cpuCache <;>
        · simp only [if_true, if_false, Bool.false_eq_true, reduceIte,
            Except.ok.injEq, Prod.mk.injEq] at hok
          obtain ⟨h1, -⟩ := hok
          rw [← h1]
          cases dir <;> simp [branch_flows]

/-- C6 witness: the theorem applied at concrete inputs — a mirror-extended
two-frame sequence produces the `.view`-on-`None` error, and a successful
run on a one-frame sequence never uses the fallback flows. -/
theorem C6_none_flow_error_witness :
    hg_forward_flow_stage (fun a b : ℚ => a - b) (fun w => w / 4) 0 false false
        [(fun _ => 0 : Frame 1), fun _ => 0] [1, 2] = .error PyErr.noneView
    ∧ (branch_flows false (some [(1 : ℚ) / 4]) [-(1 / 4)]).2 = false := by
  constructor
  · have h := (C6_none_flow_error (p := 1) (fun a b : ℚ => a - b) (fun w => w / 4) 0
      false false [fun _ => 0, fun _ => 0] [1, 2]).1
      (by norm_num [check_if_mirror_extended, seqDiffSq, frameDiffSq])
    simpa using h
  · exact (C6_none_flow_error (p := 1) (fun a b : ℚ => a - b) (fun w => w / 4) 0
      false false [fun _ => 0] [1, 2]).2 (some [(1 : ℚ) / 4]) [-(1 / 4)]
      (by norm_num [hg_forward_flow_stage, compute_flow, check_if_mirror_extended,
        flows_forward_batch, flows_backward_batch, interp_flows]) false

/-! ## C5: mirror sequences crash before any forward flow is used -/

/-- C5 evaluation (code bug): for the mirror-extended sequence
`A ++ reverse A` with `A = [f]`, the detector reports true, but the stage
forward raises the `.view`-on-`None` error before any propagation branch
runs, so the time-reversed backward flow is never actually used as the
forward flow.  Proved by direct evaluation, independent of the C6 theorem. -/
theorem C5_mirror_flow_crash :
    check_if_mirror_extended false [(fun _ => 0 : Frame 1), fun _ => 0] = true
    ∧ hg_forward_flow_stage (fun a b : ℚ => a - b) (fun w => w / 4) 0 false false
        [(fun _ => 0 : Frame 1), fun _ => 0] [1, 2] = .error PyErr.noneView := by
  have hm : check_if_mirror_extended false [(fun _ => 0 : Frame 1), fun _ => 0] = true := by
    norm_num [check_if_mirror_extended, seqDiffSq, frameDiffSq]
  refine ⟨hm, ?_⟩
  simp only [hg_forward_flow_stage, compute_flow, hm]
  simp

/-! ## C7: histogram non-negativity and CDF shape -/

lemma intensity_nonneg (px : Pixel) (hr : 0 ≤ px.r) (hg : 0 ≤ px.g)
    (hb : 0 ≤ px.b) : 0 ≤ intensity px := by
  unfold intensity albedo
  apply div_nonneg
  · linarith
  · positivity

lemma dtof_hist_entry_nonneg (tempRes : ℕ) (rebin : List ℚ) (pxs : List Pixel)
    (h : ∀ px ∈ pxs, 0 ≤ px.r ∧ 0 ≤ px.g ∧ 0 ≤ px.b) :
    ∀ q ∈ dtof_hist_torch tempRes rebin pxs, 0 ≤ q := by
  intro q hq
  unfold dtof_hist_torch at hq
  simp only [List.mem_map, List.mem_range] at hq
  obtain ⟨m, -, rfl⟩ := hq
  apply List.sum_nonneg
  intro a ha
  simp only [List.mem_map] at ha
  obtain ⟨px, hpx, rfl⟩ := ha
  split_ifs
  · obtain ⟨h1, h2, h3⟩ := h px hpx
    exact intensity_nonneg px h1 h2 h3
  · exact le_refl 0

lemma normalize_hist_nonneg (l : List ℚ) (h : ∀ q ∈ l, 0 ≤ q) :
    ∀ q ∈ normalize_hist l, 0 ≤ q := by
  intro q hq
  unfold normalize_hist at hq
  simp only [List.mem_map] at hq
  obtain ⟨a, ha, rfl⟩ := hq
  have hS : 0 ≤ l.sum := List.sum_nonneg h
  apply div_nonneg (h a ha)
  linarith

lemma sum_map_div (l : List ℚ) (c : ℚ) :
    (l.map fun q => q / c).sum = l.sum / c := by
  induction l with
  | nil => simp
  | cons x xs ih => simp [ih, add_div]

lemma normalize_hist_sum (l : List ℚ) :
    (normalize_hist l).sum = l.sum / (l.sum + 1 / 1000) :=
  sum_map_div l (l.sum + 1 / 1000)

lemma sum_take_le_sum (l : List ℚ) (h : ∀ q ∈ l, 0 ≤ q) (n : ℕ) :
    (l.take n).sum ≤ l.sum := by
  conv_rhs => rw [← List.take_append_drop n l]
  rw [List.sum_append]
  have hdrop : 0 ≤ (l.drop n).sum :=
    List.sum_nonneg fun q hq => h q (List.mem_of_mem_drop hq)
  linarith

lemma cumsum_getD (l : List ℚ) (i : ℕ) (h : i < l.length) :
    (cumsum l).getD i 0 = (l.take (i + 1)).sum := by
  unfold cumsum
  have hlen : i < ((List.range l.length).map fun i => (l.take (i + 1)).sum).length := by
    simpa using h
  rw [List.getD_eq_getElem _ _ hlen, List.getElem_map, List.getElem_range]

/-- C7: for nonnegative guide-image channels, the `dtof_hist_torch` output
summed over the bin axis is non-negative at every pixel-patch, and the
predicted CDF built inside `get_inp_error` is monotonically non-decreasing
along the bin axis and bounded in `[0, 1]`. -/
theorem C7_hist_cdf (tempRes : ℕ) (rebin : List ℚ) (pxs : List Pixel)
    (h : ∀ px ∈ pxs, 0 ≤ px.r ∧ 0 ≤ px.g ∧ 0 ≤ px.b) :
    0 ≤ (dtof_hist_torch tempRes rebin pxs).sum
    ∧ (∀ i, i + 1 < (cdf_pred tempRes rebin pxs).length →
        (cdf_pred tempRes rebin pxs).getD i 0
          ≤ (cdf_pred tempRes rebin pxs).getD (i + 1) 0)
    ∧ ∀ i, i < (cdf_pred tempRes rebin pxs).length →
        0 ≤ (cdf_pred tempRes rebin pxs).getD i 0
          ∧ (cdf_pred tempRes rebin pxs).getD i 0 ≤ 1 := by
  have hh := dtof_hist_entry_nonneg tempRes rebin pxs h
  have hnh : ∀ q ∈ normalize_hist (dtof_hist_torch tempRes rebin pxs), 0 ≤ q :=
    normalize_hist_nonneg _ hh
  have hcp : cdf_pred tempRes rebin pxs
      = cumsum (normalize_hist (dtof_hist_torch tempRes rebin pxs)) := rfl
  have hlencp : (cdf_pred tempRes rebin pxs).length
      = (normalize_hist (dtof_hist_torch tempRes rebin pxs)).length := by
    rw [hcp]; simp [cumsum]
  refine ⟨List.sum_nonneg hh, ?_, ?_⟩
  · intro i hi
    rw [hlencp] at hi
    rw [hcp, cumsum_getD _ i (by omega), cumsum_getD _ (i + 1) hi]
    rw [List.sum_take_succ _ (i + 1) hi]
    have hmem :
        0 ≤ (normalize_hist (dtof_hist_torch tempRes rebin pxs))[i + 1] :=
      hnh _ (List.getElem_mem hi)
    linarith
  · intro i hi
    rw [hlencp] at hi
    rw [hcp, cumsum_getD _ i hi]
    constructor
    · exact List.sum_nonneg fun q hq => hnh q (List.mem_of_mem_take hq)
    · calc ((normalize_hist (dtof_hist_torch tempRes rebin pxs)).take (i + 1)).sum
          ≤ (normalize_hist (dtof_hist_torch tempRes rebin pxs)).sum :=
            sum_take_le_sum _ hnh (i + 1)
        _ = (dtof_hist_torch tempRes rebin pxs).sum
              / ((dtof_hist_torch tempRes rebin pxs).sum + 1 / 1000) :=
            normalize_hist_sum _
        _ ≤ 1 := by
            have hs : 0 ≤ (dtof_hist_torch tempRes rebin pxs).sum :=
              List.sum_nonneg hh
            rw [div_le_one (by linarith)]
            linarith

/-- C7 witness: the theorem applied to a concrete one-pixel patch with two
rebin boundaries. -/
theorem C7_hist_cdf_witness :
    0 ≤ (dtof_hist_torch 4 [0, 2] [⟨0, 0, 0, 0⟩]).sum
    ∧ (cdf_pred 4 [0, 2] [⟨0, 0, 0, 0⟩]).getD 0 0
        ≤ (cdf_pred 4 [0, 2] [⟨0, 0, 0, 0⟩]).getD 1 0
    ∧ 0 ≤ (cdf_pred 4 [0, 2] [⟨0, 0, 0, 0⟩]).getD 0 0
    ∧ (cdf_pred 4 [0, 2] [⟨0, 0, 0, 0⟩]).getD 0 0 ≤ 1 := by
  have h := C7_hist_cdf 4 [0, 2] [⟨0, 0, 0, 0⟩]
    (by intro px hpx; simp at hpx; subst hpx; norm_num)
  have hlen : (cdf_pred 4 [0, 2] [⟨0, 0, 0, 0⟩]).length = 2 := by
    norm_num [cdf_pred, cumsum, normalize_hist, dtof_hist_torch]
  exact ⟨h.1, h.2.1 0 (by omega), (h.2.2 0 (by omega)).1, (h.2.2 0 (by omega)).2⟩

/-! ## C8: the all-zero-CDF sentinel -/

lemma foldl_max_le_iff : ∀ (xs : List ℚ) (x c : ℚ),
    xs.foldl max x ≤ c ↔ x ≤ c ∧ ∀ a ∈ xs, a ≤ c := by
  intro xs
  induction xs with
  | nil => intro x c; simp
  | cons y ys ih =>
    intro x c
    rw [List.foldl_cons, ih, max_le_iff]
    constructor
    · rintro ⟨⟨h1, h2⟩, h3⟩
      refine ⟨h1, ?_⟩
      intro a ha
      rcases List.mem_cons.mp ha with rfl | ha2
      · exact h2
      · exact h3 a ha2
    · rintro ⟨h1, h2⟩
      exact ⟨⟨h1, h2 y (List.mem_cons_self y ys)⟩,
        fun a ha => h2 a (List.mem_cons_of_mem y ha)⟩

lemma le_list_max (l : List ℚ) (a : ℚ) (ha : a ∈ l) : a ≤ list_max l := by
  cases l with
  | nil => simp at ha
  | cons x xs =>
    have h := (foldl_max_le_iff xs x (xs.foldl max x)).mp le_rfl
    rcases List.mem_cons.mp ha with rfl | h2
    · exact h.1
    · exact h.2 a h2

lemma list_max_eq_of_mem_of_le (l : List ℚ) (c : ℚ) (hc : c ∈ l)
    (h : ∀ a ∈ l, a ≤ c) : list_max l = c := by
  cases l with
  | nil => simp at hc
  | cons x xs =>
    apply le_antisymm
    · exact (foldl_max_le_iff xs x c).mpr
        ⟨h x (by simp), fun a ha => h a (by simp [ha])⟩
    · exact le_list_max _ c hc

lemma list_max_of_all_zero (l : List ℚ) (h : ∀ a ∈ l, a = 0) :
    list_max l = 0 := by
  cases l with
  | nil => rfl
  | cons x xs =>
    refine list_max_eq_of_mem_of_le _ 0 ?_ ?_
    · have hx := h x (List.mem_cons_self x xs)
      rw [← hx]
      exact List.mem_cons_self x xs
    · intro a ha
      exact le_of_eq (h a ha)

lemma get_inp_error_sentinel (tempRes : ℕ) (cdf rebin : List ℚ)
    (pxs : List Pixel) (h : ∀ c ∈ cdf, c = 0) :
    get_inp_error tempRes cdf rebin pxs = -1 := by
  have hmax : list_max (cdf.map fun c => c / (list_max cdf + 1 / 1000)) = 0 := by
    apply list_max_of_all_zero
    intro a ha
    simp only [List.mem_map] at ha
    obtain ⟨c, hc, rfl⟩ := ha
    rw [h c hc]
    simp
  simp only [get_inp_error]
  rw [if_pos hmax]

lemma flatMap_replicate_length {α : Type} (p : ℕ) (l : List α) :
    (l.flatMap fun v => List.replicate p v).length = p * l.length := by
  induction l with
  | nil => simp
  | cons x xs ih =>
    simp only [List.flatMap_cons, List.length_append, List.length_replicate, ih,
      List.length_cons]
    ring

lemma flatMap_replicate_getD {α : Type} (p : ℕ) (l : List α) (d : α) :
    ∀ i, i < p * l.length →
      (l.flatMap fun v => List.replicate p v).getD i d = l.getD (i / p) d := by
  induction l with
  | nil => intro i hi; simp at hi
  | cons x xs ih =>
    intro i hi
    have hp : 0 < p := by
      rcases Nat.eq_zero_or_pos p with rfl | hp
      · simp at hi
      · exact hp
    rw [List.flatMap_cons]
    by_cases hip : i < p
    · rw [List.getD_append _ _ _ _ (by simpa using hip), Nat.div_eq_of_lt hip]
      rw [List.getD_eq_getElem _ _ (by simpa using hip)]
      simp
    · push_neg at hip
      rw [List.getD_append_right _ _ _ _ (by simpa using hip)]
      have hi' : i - p < p * xs.length := by
        have h2 : i < p * xs.length + p := by
          have := hi
          simp only [List.length_cons, Nat.mul_succ] at this
          omega
        omega
      rw [List.length_replicate, ih (i - p) hi', Nat.div_eq_sub_div hp hip,
        List.getD_cons_succ]

lemma upsample_nearest_getD (p : ℕ) (g : List (List ℚ)) (i j : ℕ)
    (hi : i < p * g.length) (hj : j < p * (g.getD (i / p) []).length) :
    ((upsample_nearest p g).getD i []).getD j 0
      = (g.getD (i / p) []).getD (j / p) 0 := by
  unfold upsample_nearest repeat_cols repeat_rows
  have hlen : i < (g.flatMap fun row => List.replicate p row).length := by
    rw [flatMap_replicate_length]; exact hi
  have hrow : (g.flatMap fun row => List.replicate p row).getD i [] = g.getD (i / p) [] :=
    flatMap_replicate_getD p g [] i hi
  have hlen2 : i < (List.map (fun row => row.flatMap fun v => List.replicate p v)
      (g.flatMap fun row => List.replicate p row)).length := by
    rw [List.length_map]
    exact hlen
  rw [List.getD_eq_getElem _ _ hlen2, List.getElem_map]
  have hEl : (g.flatMap fun row => List.replicate p row)[i] = g.getD (i / p) [] := by
    rw [← List.getD_eq_getElem _ ([] : List ℚ) hlen]
    exact hrow
  rw [hEl]
  exact flatMap_replicate_getD p _ 0 j hj

/-- C8: a pixel-patch whose input compressed CDF is identically zero along
the bin axis is assigned the sentinel error value exactly `-1` before
upsampling, and the nearest-neighbor upsampling by factor `pitch` leaves
exactly `-1` at every full-resolution pixel covering that patch. -/
theorem C8_sentinel (p tempRes : ℕ) (cdf rebin : List ℚ) (pxs : List Pixel)
    (g : List (List ℚ)) (i j : ℕ)
    (h0 : ∀ c ∈ cdf, c = 0)
    (hg : (g.getD (i / p) []).getD (j / p) 0 = get_inp_error tempRes cdf rebin pxs)
    (hi : i < p * g.length) (hj : j < p * (g.getD (i / p) []).length) :
    get_inp_error tempRes cdf rebin pxs = -1
    ∧ ((upsample_nearest p g).getD i []).getD j 0 = -1 := by
  have hs := get_inp_error_sentinel tempRes cdf rebin pxs h0
  refine ⟨hs, ?_⟩
  rw [upsample_nearest_getD p g i j hi hj, hg, hs]

/-- C8 witness: a concrete all-zero CDF patch, its `-1` error value, and
the upsampled error map still reading `-1` at a covered pixel. -/
theorem C8_sentinel_witness :
    get_inp_error 4 [0, 0] [0, 1] [⟨0, 0, 0, 0⟩] = -1
    ∧ ((upsample_nearest 2 ([[-1]] : List (List ℚ))).getD 0 []).getD 0 0 = -1 := by
  have hg : (([[-1]] : List (List ℚ)).getD (0 / 2) []).getD (0 / 2) 0
      = get_inp_error 4 [0, 0] [0, 1] [⟨0, 0, 0, 0⟩] := by
    norm_num [get_inp_error, list_max, cdf_pred, cumsum, normalize_hist,
      dtof_hist_torch]
  exact C8_sentinel 2 4 [0, 0] [0, 1] [⟨0, 0, 0, 0⟩] [[-1]] 0 0
    (by intro c hc; simp at hc; exact hc) hg (by norm_num) (by norm_num)

/-! ## C9: positional encoding -/

lemma max_pool_neg_ygrid (p k l : ℕ) (hp : 0 < p) :
    max_pool p (fun i j => -ygrid i j) k l = -((p * k : ℕ) : ℚ) := by
  unfold max_pool ygrid
  apply list_max_eq_of_mem_of_le
  · simp only [List.mem_flatMap, List.mem_map, List.mem_range]
    refine ⟨0, hp, ⟨0, hp, ?_⟩⟩
    simp
  · intro a ha
    simp only [List.mem_flatMap, List.mem_map, List.mem_range] at ha
    obtain ⟨di, hdi, dj, hdj, rfl⟩ := ha
    have hle : ((p * k : ℕ) : ℚ) ≤ ((p * k + di : ℕ) : ℚ) := by
      exact_mod_cast Nat.le_add_right _ _
    linarith

lemma max_pool_neg_xgrid (p k l : ℕ) (hp : 0 < p) :
    max_pool p (fun i j => -xgrid i j) k l = -((p * l : ℕ) : ℚ) := by
  unfold max_pool xgrid
  apply list_max_eq_of_mem_of_le
  · simp only [List.mem_flatMap, List.mem_map, List.mem_range]
    refine ⟨0, hp, ⟨0, hp, ?_⟩⟩
    simp
  · intro a ha
    simp only [List.mem_flatMap, List.mem_map, List.mem_range] at ha
    obtain ⟨di, hdi, dj, hdj, rfl⟩ := ha
    have hle : ((p * l : ℕ) : ℚ) ≤ ((p * l + dj : ℕ) : ℚ) := by
      exact_mod_cast Nat.le_add_right _ _
    linarith

lemma patch_y_eq (p y x : ℕ) (hp : 0 < p) :
    patch_y p y x = ((p * (y / p) : ℕ) : ℚ) := by
  unfold patch_y up_grid
  show -max_pool p (fun i j => -ygrid i j) (y / p) (x / p) = ((p * (y / p) : ℕ) : ℚ)
  rw [max_pool_neg_ygrid p (y / p) (x / p) hp]
  ring

lemma patch_x_eq (p y x : ℕ) (hp : 0 < p) :
    patch_x p y x = ((p * (x / p) : ℕ) : ℚ) := by
  unfold patch_x up_grid
  show -max_pool p (fun i j => -xgrid i j) (y / p) (x / p) = ((p * (x / p) : ℕ) : ℚ)
  rw [max_pool_neg_xgrid p (y / p) (x / p) hp]
  ring

lemma coord_sub_patch (p y : ℕ) :
    (y : ℚ) - ((p * (y / p) : ℕ) : ℚ) = ((y % p : ℕ) : ℚ) := by
  have h1 : p * (y / p) + y % p = y := Nat.div_add_mod y p
  have h2 : ((p * (y / p) + y % p : ℕ) : ℚ) = (y : ℚ) := by rw [h1]
  push_cast at h2 ⊢
  linarith

/-- C9 amended: for `pitch` dividing `H` and `W`, `get_pos_encoding`
returns, per pixel, the 6-channel encoding consisting of the absolute
normalized position, the position relative to the *minimum (top-left)
coordinate* of its enclosing `pitch`-sized patch, and that patch-corner's
absolute normalized position; the result is deterministic and identical
across the batch and time axes. -/
theorem C9_pos_encoding (B T H W p : ℕ) (hp : 0 < p) (hH : p ∣ H) (hW : p ∣ W)
    (b t y x : ℕ) (hb : b < B) (ht : t < T) (hy : y < H) (hx : x < W) :
    get_pos_encoding B T H W p b t y x =
      [(y : ℚ) / (H : ℚ), (x : ℚ) / (W : ℚ),
       ((y % p : ℕ) : ℚ) / (p : ℚ), ((x % p : ℕ) : ℚ) / (p : ℚ),
       ((p * (y / p) : ℕ) : ℚ) / (H : ℚ), ((p * (x / p) : ℕ) : ℚ) / (W : ℚ)]
    ∧ (get_pos_encoding B T H W p b t y x).length = 6
    ∧ ∀ b' t', b' < B → t' < T →
        get_pos_encoding B T H W p b' t' y x = get_pos_encoding B T H W p b t y x := by
  refine ⟨?_, rfl, fun _ _ _ _ => rfl⟩
  show pos_encoding_pixel H W p y x = _
  unfold pos_encoding_pixel ygrid xgrid
  rw [patch_y_eq p y x hp, patch_x_eq p y x hp, coord_sub_patch p y, coord_sub_patch p x]

/-- C9 witness: the amended formula evaluated at a concrete pixel. -/
theorem C9_pos_encoding_witness :
    get_pos_encoding 1 1 2 2 2 0 0 1 1 = [1 / 2, 1 / 2, 1 / 2, 1 / 2, 0, 0]
    ∧ (get_pos_encoding 1 1 2 2 2 0 0 1 1).length = 6 := by
  have h := C9_pos_encoding 1 1 2 2 2 (by norm_num) ⟨1, rfl⟩ ⟨1, rfl⟩ 0 0 1 1
    (by norm_num) (by norm_num) (by norm_num) (by norm_num)
  exact ⟨h.1.trans (by norm_num), h.2.1⟩

/-- C9 counterexample: the claim reads the last two channel pairs as
relative to the patch *center*; at `pitch = 2`, pixel `(0,0)` the source
emits the patch minimum coordinate `0` (normalized `0`), while the claimed
patch-center channel is `(0 + 1/2)/2 = 1/4`, so the claimed encoding
differs from the computed one. -/
theorem C9_pos_encoding_cex :
    get_pos_encoding 1 1 2 2 2 0 0 0 0 ≠ spec_pos_encoding_pixel 2 2 2 0 0
    ∧ (get_pos_encoding 1 1 2 2 2 0 0 0 0).getD 4 0 = 0
    ∧ (spec_pos_encoding_pixel 2 2 2 0 0).getD 4 0 = 1 / 4 := by
  have hcode : get_pos_encoding 1 1 2 2 2 0 0 0 0 = [0, 0, 0, 0, 0, 0] := by
    show pos_encoding_pixel 2 2 2 0 0 = _
    unfold pos_encoding_pixel ygrid xgrid
    rw [patch_y_eq 2 0 0 (by norm_num), patch_x_eq 2 0 0 (by norm_num)]
    norm_num
  have hspec : spec_pos_encoding_pixel 2 2 2 0 0
      = [0, 0, -(1 / 4), -(1 / 4), 1 / 4, 1 / 4] := by
    norm_num [spec_pos_encoding_pixel, spec_patch_center_y, spec_patch_center_x]
  refine ⟨?_, by rw [hcode]; norm_num, by rw [hspec]; norm_num⟩
  rw [hcode, hspec]
  intro h
  have h5 := congrArg (fun l => l.getD 4 0) h
  norm_num at h5

/-! ## C1: the structure of the propagation loop -/

lemma prop_run_length {F Wt : Type} (ops : PropOps F Wt) (flows : List Wt)
    (spatial : List F) (others : List (List F)) (isBackward : Bool) (t : ℕ) :
    ∀ (l : List (ℕ × ℕ)) (fp : F) (outs : List F),
      (prop_run ops flows spatial others isBackward t l fp outs).length = l.length := by
  intro l
  induction l with
  | nil => intro fp outs; rfl
  | cons pr rest ih =>
    intro fp outs
    simp [prop_run, ih]

lemma prop_run_aligned {F Wt : Type} (ops : PropOps F Wt) (flows : List Wt)
    (spatial : List F) (others : List (List F)) (isBackward : Bool) (t : ℕ) :
    ∀ (l : List (ℕ × ℕ)) (fp : F) (outs : List F),
      (prop_run ops flows spatial others isBackward t l fp outs).map PropRec.aligned
        = l.map fun pr => decide (0 < pr.1) := by
  intro l
  induction l with
  | nil => intro fp outs; rfl
  | cons pr rest ih =>
    intro fp outs
    simp [prop_run, ih]

lemma propagate_records_length {F Wt : Type} (ops : PropOps F Wt) (flows : List Wt)
    (spatial : List F) (others : List (List F)) (isBackward : Bool) :
    (propagate_records ops flows spatial others isBackward).length
      = flows.length + 1 := by
  unfold propagate_records
  rw [prop_run_length]
  cases isBackward <;> simp

lemma propagate_length {F Wt : Type} (ops : PropOps F Wt) (flows : List Wt)
    (spatial : List F) (others : List (List F)) (isBackward : Bool) :
    (propagate ops flows spatial others isBackward).length = flows.length + 1 := by
  unfold propagate
  cases isBackward <;> simp [propagate_records_length]

lemma propagate_records_aligned {F Wt : Type} (ops : PropOps F Wt) (flows : List Wt)
    (spatial : List F) (others : List (List F)) (isBackward : Bool) :
    (propagate_records ops flows spatial others isBackward).map PropRec.aligned
      = (List.range (flows.length + 1)).map fun i => decide (0 < i) := by
  unfold propagate_records
  rw [prop_run_aligned]
  have hco : (fun pr : ℕ × ℕ => decide (0 < pr.1))
      = (fun i => decide (0 < i)) ∘ Prod.fst := rfl
  rw [hco, ← List.map_map, List.enum_map_fst]
  cases isBackward <;> simp

/-- C1 amended: for every branch and every input of `T ≥ 2` frames (so
`T - 1` flow fields), the propagation loop runs the unified counter
`i = 0 .. T-1`, i.e. exactly `T` internal steps; step `i = 0` is a seed
step that applies no alignment but still appends a propagated frame, and
every step — including the seed — appends exactly one frame, so the
externally visible branch output has length exactly `T`. -/
theorem C1_propagate_loop {F Wt : Type} (ops : PropOps F Wt) (flows : List Wt)
    (spatial : List F) (others : List (List F)) (isBackward : Bool)
    (hs : spatial.length = flows.length + 1) (h2 : 2 ≤ spatial.length) :
    (propagate_records ops flows spatial others isBackward).length = spatial.length
    ∧ (propagate ops flows spatial others isBackward).length = spatial.length
    ∧ (propagate_records ops flows spatial others isBackward).map PropRec.aligned
        = (List.range spatial.length).map fun i => decide (0 < i) :=
  ⟨by rw [propagate_records_length, hs],
   by rw [propagate_length, hs],
   by rw [propagate_records_aligned, hs]⟩

/-- C1 witness: the amended loop facts at a concrete two-frame input. -/
theorem C1_propagate_loop_witness :
    (propagate_records opsQ [0] [1, 2] [] false).length = 2
    ∧ (propagate opsQ [0] [1, 2] [] false).length = 2
    ∧ (propagate_records opsQ [0] [1, 2] [] false).map PropRec.aligned
        = (List.range 2).map fun i => decide (0 < i) :=
  C1_propagate_loop opsQ [0] [1, 2] [] false rfl (by norm_num)

/-- C1 counterexample: for a two-frame sequence (`T = 2`, one flow field)
the loop performs exactly `2` internal steps, not the claimed `T + 1 = 3`,
and both steps (the seed included) append a frame, giving output length
`2`. -/
theorem C1_propagate_loop_cex :
    (propagate_records opsQ [0] [1, 2] [] false).length = 2
    ∧ ¬ (propagate_records opsQ [0] [1, 2] [] false).length = 2 + 1
    ∧ (propagate opsQ [0] [1, 2] [] false).length = 2 := by
  have h1 : (propagate_records opsQ [0] [1, 2] [] false).length = 2 :=
    propagate_records_length opsQ [0] [1, 2] [] false
  have h2 : (propagate opsQ [0] [1, 2] [] false).length = 2 :=
    propagate_length opsQ [0] [1, 2] [] false
  exact ⟨h1, by omega, h2⟩

end DVSRModel
